import Mathlib

/-!
Verification of the batching, evaluation and checkpointing logic of
`py_scripts/train_android.py`.

Tensors are modelled as nested lists of rationals: a feature sequence of
shape `(L, D)` is a list of `L` rows, each a list of `D` rationals; a
matrix of shape `(N, C)` is a list of `N` rows of length `C`; a boolean
mask of shape `(N, L)` is a list of `N` rows of `L` booleans.
-/

namespace TrainAndroid

/-- A dataset sample as consumed by `collate_feat`: a variable-length
feature sequence (shape `(L, D)`), a ground-truth correction vector and an
initial-guess vector. -/
structure Sample where
  features : List (List ℚ)
  true_correction : List ℚ
  guess : List ℚ
deriving DecidableEq, Repr

/-- The value returned by `collate_feat`: the Python function returns a
pair of a dict and the mask; here the four components are bundled in one
structure. -/
structure CollateOut where
  features : List (List (List ℚ))
  true_correction : List (List ℚ)
  guess : List (List ℚ)
  pad_mask : List (List Bool)
deriving DecidableEq, Repr

/-- The comparison used by the Python call
`sorted(batch, key=lambda x: x[...].shape[0], reverse=True)` on the
features field: sample `a` may come before sample `b` when its feature sequence is at least
as long.  The Python sort is stable; `List.mergeSort` is the stable sort of
the Lean library, so `mergeSort` with this comparison models it exactly. -/
def lenDescLe (a b : Sample) : Bool :=
  decide (b.features.length ≤ a.features.length)

/-- Model of `torch.nn.utils.rnn.pad_sequence` with the default
`batch_first=False` and `padding_value=0`: the input sequences (each of
shape `(L_i, D)`) are stacked into shape `(L_max, N, D)`, missing rows
filled with zeros.  The row width is taken from the first sequence, as
torch takes the trailing dimensions from `sequences[0]`. -/
def pad_sequence (seqs : List (List (List ℚ))) : List (List (List ℚ)) :=
  let L := (seqs.map List.length).foldr max 0
  let dim := ((seqs.headD []).headD []).length
  (List.range L).map fun l => seqs.map fun s => s.getD l (List.replicate dim 0)

/-- Embedding of `collate_feat`: sort the batch by descending feature length
(stable), pad the feature sequences, build the padding mask by writing ones
from position `len(x)` on in each row of an `(N, L)` zero matrix, and stack
the correction and guess vectors in the sorted order. -/
def collate_feat (batch : List Sample) : CollateOut :=
  let sorted_batch := batch.mergeSort lenDescLe
  let features := sorted_batch.map Sample.features
  let features_padded := pad_sequence features
  let L := features_padded.length
  let pad_mask := features.map fun x =>
    List.replicate x.length false ++ List.replicate (L - x.length) true
  { features := features_padded
    true_correction := sorted_batch.map Sample.true_correction
    guess := sorted_batch.map Sample.guess
    pad_mask := pad_mask }

/-- The original feature-sequence lengths in sorted batch order. -/
def sortedLens (batch : List Sample) : List Nat :=
  (batch.mergeSort lenDescLe).map fun s => s.features.length

/-- The maximum feature-sequence length of a batch (0 for an empty batch). -/
def maxLen (batch : List Sample) : Nat :=
  ((batch.map fun s => s.features.length).foldr max 0)

unseal List.merge List.mergeSort in
example :
    collate_feat [⟨[[1, 2], [3, 4]], [5], [6]⟩, ⟨[[7, 8]], [9], [10]⟩] =
      { features := [[[1, 2], [7, 8]], [[3, 4], [0, 0]]]
        true_correction := [[5], [9]]
        guess := [[6], [10]]
        pad_mask := [[false, false], [false, true]] } := by decide

unseal List.merge List.mergeSort in
example :
    collate_feat [⟨[[1, 2]], [0], [0]⟩, ⟨[], [3], [4]⟩] =
      { features := [[[1, 2], [0, 0]]]
        true_correction := [[0], [3]]
        guess := [[0], [4]]
        pad_mask := [[false], [true]] } := by decide

/-! ### Evaluator: `test_eval` -/

/-- Elementwise matrix subtraction, modelling `y - pred_correction` on two
tensors of equal shape `(N, C)`. -/
def matSub (a b : List (List ℚ)) : List (List ℚ) :=
  List.zipWith (fun ra rb => List.zipWith (fun u v => u - v) ra rb) a b

/-- Model of `np.mean(np.abs(np.array(stats_val)), axis=0)` for a list of
matrices of one common shape: the entrywise mean of the absolute values,
the output shape taken from the first matrix as `np.array` takes it from
its first element. -/
def npAbsMean0 (stats : List (List (List ℚ))) : List (List ℚ) :=
  let n := (stats.headD []).length
  let c := ((stats.headD []).headD []).length
  (List.range n).map fun r => (List.range c).map fun j =>
    ((stats.map fun m => |(m.getD r []).getD j 0|).sum) / (stats.length : ℚ)

/-- Model of drawing the next batch in the body of the `test_eval` loop:
`next(generator)` on the remaining batches; on `StopIteration` the
generator is rebuilt from the loader and `next` is retried, and a second
`StopIteration` (empty loader) escapes the loop. -/
def nextWrap {β : Type} (val_loader rest : List β) : Option (β × List β) :=
  match rest with
  | b :: rs => some (b, rs)
  | [] =>
    match val_loader with
    | b :: rs => some (b, rs)
    | [] => none

/-- The prediction the network produces on one collated batch, as used by
`test_eval`: `net(x, pad_mask=pad_mask)`. -/
def predOf (net : List (List (List ℚ)) → List (List Bool) → List (List ℚ))
    (b : CollateOut) : List (List ℚ) :=
  net b.features b.pad_mask

/-- The loss recorded for one batch in the `test_eval` loop:
`loss_func(pred_correction, y)`. -/
def lossOf (net : List (List (List ℚ)) → List (List Bool) → List (List ℚ))
    (loss_func : List (List ℚ) → List (List ℚ) → ℚ) (b : CollateOut) : ℚ :=
  loss_func (predOf net b) b.true_correction

/-- The statistic recorded for one batch in the `test_eval` loop:
`(y - pred_correction)`. -/
def statOf (net : List (List (List ℚ)) → List (List Bool) → List (List ℚ))
    (b : CollateOut) : List (List ℚ) :=
  matSub b.true_correction (predOf net b)

/-- The `for i in range(100)` loop of `test_eval`: state is the remaining
batches of the current generator, the accumulated `stats_val` list and the
accumulated `loss_val`. -/
def evalLoop (val_loader : List CollateOut)
    (net : List (List (List ℚ)) → List (List Bool) → List (List ℚ))
    (loss_func : List (List ℚ) → List (List ℚ) → ℚ) :
    Nat → List CollateOut → List (List (List ℚ)) → ℚ →
      Option (List (List (List ℚ)) × ℚ)
  | 0, _, stats_val, loss_val => some (stats_val, loss_val)
  | n + 1, rest, stats_val, loss_val =>
    match nextWrap val_loader rest with
    | none => none
    | some (b, rest2) =>
      evalLoop val_loader net loss_func n rest2
        (stats_val ++ [statOf net b]) (loss_val + lossOf net loss_func b)

/-- Embedding of `test_eval`: run the loop for 100 iterations starting with
a fresh generator, then return the per-dimension mean absolute error and
`loss_val / len(stats_val)`.  `none` models the uncaught `StopIteration`
that escapes when the loader is empty. -/
def test_eval (val_loader : List CollateOut)
    (net : List (List (List ℚ)) → List (List Bool) → List (List ℚ))
    (loss_func : List (List ℚ) → List (List ℚ) → ℚ) :
    Option (List (List ℚ) × ℚ) :=
  (evalLoop val_loader net loss_func 100 val_loader [] 0).map fun r =>
    (npAbsMean0 r.1, r.2 / (r.1.length : ℚ))

/-- The sequence of batches a wrapping pass over the loader consumes:
iteration `i` sees batch `i % len(val_loader)`. -/
def wrapStream (val_loader : List CollateOut) (n : Nat) : List CollateOut :=
  (List.range n).map fun i =>
    val_loader.getD (i % val_loader.length) ⟨[], [], [], []⟩

/-! ### Trainer loop: checkpointing -/

/-- Model of `np.sum` on a matrix: the sum of all entries. -/
def npSum (m : List (List ℚ)) : ℚ := (m.map fun r => r.sum).sum

/-- Embedding of the checkpointing logic of `main`: `min_acc` starts at
`1000000`; after the epoch whose evaluation returned `mean_acc`, the model
is saved exactly when `np.sum(mean_acc) < min_acc`, and `min_acc` is then
set to `np.sum(mean_acc)`.  Given the per-epoch `mean_acc` matrices, this
returns the per-epoch save decisions. -/
def checkpointWrites (accs : List (List (List ℚ))) : List Bool :=
  (accs.foldl
    (fun st mean_acc =>
      if npSum mean_acc < st.1 then (npSum mean_acc, st.2 ++ [true])
      else (st.1, st.2 ++ [false]))
    ((1000000 : ℚ), ([] : List Bool))).2

/-- Helper: the save decisions produced from a given current `min_acc`. -/
def writesFrom (m : ℚ) : List (List (List ℚ)) → List Bool
  | [] => []
  | a :: as => decide (npSum a < m) :: writesFrom (min m (npSum a)) as

/-- The checkpointing rule in the words of the specification: a write
happens after an epoch exactly when its score is strictly lower than every
score of the earlier epochs (so the first epoch always writes). -/
def claimedWrites (accs : List (List (List ℚ))) : List Bool :=
  (List.range accs.length).map fun t =>
    ((accs.take t).map npSum).all fun s => decide (npSum (accs.getD t []) < s)

example : checkpointWrites [[[5]], [[6]], [[49/10]]] = [true, false, true] := by
  norm_num [checkpointWrites, npSum]

example : checkpointWrites [[[1000000]]] = [false] := by
  norm_num [checkpointWrites, npSum]

example : claimedWrites [[[1000000]]] = [true] := by
  norm_num [claimedWrites, npSum, List.range_succ]

/-! ### Helper lemmas -/

theorem getD_of_lt {α : Type} (l : List α) (i : Nat) (d : α) (h : i < l.length) :
    l.getD i d = l[i] := by
  rw [List.getD_eq_getElem?_getD, List.getElem?_eq_getElem h, Option.getD_some]

theorem le_foldr_max {l : List Nat} {a : Nat} (h : a ∈ l) (b : Nat) :
    a ≤ l.foldr max b := by
  induction l with
  | nil => cases h
  | cons x t ih =>
    rcases List.mem_cons.mp h with rfl | h2
    · exact Nat.le_max_left _ _
    · exact Nat.le_trans (ih h2) (Nat.le_max_right _ _)

theorem foldr_max_le {l : List Nat} {c : Nat} (h : ∀ a ∈ l, a ≤ c) :
    l.foldr max 0 ≤ c := by
  induction l with
  | nil => simp
  | cons x t ih =>
    exact Nat.max_le.mpr ⟨h x (List.mem_cons_self x t), ih fun a ha => h a (List.mem_cons_of_mem _ ha)⟩

theorem foldr_max_perm {l₁ l₂ : List Nat} (h : l₁.Perm l₂) (b : Nat) :
    l₁.foldr max b = l₂.foldr max b := by
  induction h with
  | nil => rfl
  | cons x _ ih => simp [List.foldr_cons, ih]
  | swap x y l =>
    simp only [List.foldr_cons]
    rw [Nat.max_left_comm]
  | trans _ _ ih₁ ih₂ => rw [ih₁, ih₂]

/-- The transitivity fact `sorted_mergeSort` needs for `lenDescLe`. -/
theorem lenDescLe_trans (a b c : Sample) :
    lenDescLe a b → lenDescLe b c → lenDescLe a c := by
  simp only [lenDescLe, decide_eq_true_eq]
  exact fun h₁ h₂ => Nat.le_trans h₂ h₁

/-- The totality fact `sorted_mergeSort` needs for `lenDescLe`. -/
theorem lenDescLe_total (a b : Sample) : lenDescLe a b || lenDescLe b a := by
  simp only [lenDescLe]
  rcases Nat.le_total b.features.length a.features.length with h | h <;> simp [h]

theorem sortedLens_length (batch : List Sample) :
    (sortedLens batch).length = batch.length := by
  simp [sortedLens]

/-- The maximum sequence length is invariant under the sort: the fold over
the sorted lengths equals `maxLen` of the batch. -/
theorem maxLen_eq_sorted_fold (batch : List Sample) :
    ((sortedLens batch).foldr max 0) = maxLen batch := by
  unfold sortedLens maxLen
  exact foldr_max_perm ((List.mergeSort_perm batch lenDescLe).map _) 0

theorem sortedLens_le_maxLen (batch : List Sample) {i : Nat}
    (hi : i < batch.length) : (sortedLens batch).getD i 0 ≤ maxLen batch := by
  rw [← maxLen_eq_sorted_fold]
  have hlen : i < (sortedLens batch).length := by rwa [sortedLens_length]
  rw [getD_of_lt _ _ _ hlen]
  exact le_foldr_max (List.getElem_mem hlen) 0

/-- The padding mask depends only on the sorted sequence lengths: row `i`
is `L_i` zeros followed by `L_max - L_i` ones. -/
theorem pad_mask_eq (batch : List Sample) :
    (collate_feat batch).pad_mask =
      (sortedLens batch).map fun Li =>
        List.replicate Li false ++ List.replicate (maxLen batch - Li) true := by
  have hfold : ((((batch.mergeSort lenDescLe).map Sample.features).map List.length).foldr max 0)
      = maxLen batch := by
    rw [List.map_map, ← maxLen_eq_sorted_fold]
    rfl
  simp only [collate_feat, pad_sequence, List.length_map, List.length_range]
  rw [hfold]
  simp only [sortedLens, List.map_map]
  rfl

theorem maskRow_getD {Li L l : Nat} (hLi : Li ≤ L) (hl : l < L) :
    ((List.replicate Li false ++ List.replicate (L - Li) true).getD l false = true ↔ Li ≤ l) := by
  have hlen : (List.replicate Li false ++ List.replicate (L - Li) true).length = L := by
    simp; omega
  rw [getD_of_lt _ _ _ (by omega : l < (List.replicate Li false ++ List.replicate (L - Li) true).length)]
  by_cases hcase : l < Li
  · rw [List.getElem_append_left (by simpa using hcase)]
    simp
    omega
  · rw [List.getElem_append_right (by simpa using Nat.le_of_not_lt hcase)]
    simp
    omega

/-- C1: `pad_mask[i, l] = True` iff `l >= L_i`, where `L_i` is the original
length of the sample at sorted position `i`; in particular a one-sample
batch, or one whose samples all have equal lengths, has an all-False mask. -/
theorem pad_mask_marks_padding (batch : List Sample) (_hne : batch ≠ [])
    (_hpos : ∀ s ∈ batch, 0 < s.features.length) :
    (∀ i l, i < batch.length → l < maxLen batch →
        (((collate_feat batch).pad_mask.getD i []).getD l false = true ↔
          (sortedLens batch).getD i 0 ≤ l)) ∧
    (batch.length = 1 →
        ∀ row ∈ (collate_feat batch).pad_mask, ∀ b ∈ row, b = false) ∧
    ((∀ s ∈ batch, ∀ t ∈ batch, s.features.length = t.features.length) →
        ∀ row ∈ (collate_feat batch).pad_mask, ∀ b ∈ row, b = false) := by
  have hmain : ∀ i l, i < batch.length → l < maxLen batch →
      (((collate_feat batch).pad_mask.getD i []).getD l false = true ↔
        (sortedLens batch).getD i 0 ≤ l) := by
    intro i l hi hl
    have hilen : i < (sortedLens batch).length := by rwa [sortedLens_length]
    have h1 : (collate_feat batch).pad_mask.getD i [] =
        List.replicate ((sortedLens batch).getD i 0) false ++
          List.replicate (maxLen batch - (sortedLens batch).getD i 0) true := by
      rw [pad_mask_eq, getD_of_lt _ _ _ (by simpa using hilen), List.getElem_map,
        getD_of_lt _ _ _ hilen]
    rw [h1]
    exact maskRow_getD (sortedLens_le_maxLen batch hi) hl
  have hequal : (∀ s ∈ batch, ∀ t ∈ batch, s.features.length = t.features.length) →
      ∀ row ∈ (collate_feat batch).pad_mask, ∀ b ∈ row, b = false := by
    intro hall row hrow b hb
    rw [pad_mask_eq] at hrow
    obtain ⟨Li, hLi, rfl⟩ := List.mem_map.mp hrow
    obtain ⟨s, hs, rfl⟩ := List.mem_map.mp hLi
    have hsb : s ∈ batch := (List.mergeSort_perm batch lenDescLe).mem_iff.mp hs
    have hmaxle : maxLen batch ≤ s.features.length := by
      apply foldr_max_le
      intro a ha
      obtain ⟨t, ht, rfl⟩ := List.mem_map.mp ha
      exact Nat.le_of_eq (hall t ht s hsb)
    rw [Nat.sub_eq_zero_of_le hmaxle, List.replicate_zero, List.append_nil] at hb
    exact List.eq_of_mem_replicate hb
  refine ⟨hmain, ?_, hequal⟩
  intro h1
  obtain ⟨a, rfl⟩ := List.length_eq_one.mp h1
  exact hequal fun s hs t ht => by
    rw [List.mem_singleton.mp hs, List.mem_singleton.mp ht]

theorem getD_of_le {α : Type} (l : List α) (i : Nat) (d : α) (h : l.length ≤ i) :
    l.getD i d = d := by
  rw [List.getD_eq_getElem?_getD, List.getElem?_eq_none h, Option.getD_none]

/-- The row width `pad_sequence` pads with, as used inside `collate_feat`:
torch takes the trailing dimensions of `sequences[0]`. -/
def padDim (batch : List Sample) : Nat :=
  ((((batch.mergeSort lenDescLe).map Sample.features).headD []).headD []).length

theorem feats_fold (batch : List Sample) :
    ((((batch.mergeSort lenDescLe).map Sample.features).map List.length).foldr max 0)
      = maxLen batch := by
  rw [List.map_map, ← maxLen_eq_sorted_fold]
  rfl

/-- The padded feature tensor of `collate_feat`, written out plane by plane. -/
theorem features_eq (batch : List Sample) :
    (collate_feat batch).features =
      (List.range (maxLen batch)).map fun l =>
        ((batch.mergeSort lenDescLe).map Sample.features).map fun s =>
          s.getD l (List.replicate (padDim batch) 0) := by
  simp only [collate_feat, pad_sequence]
  rw [feats_fold]
  rfl

/-- The first sample after sorting has the maximal sequence length. -/
theorem sorted_head_len {batch : List Sample} {x : Sample} {t : List Sample}
    (h : batch.mergeSort lenDescLe = x :: t) :
    x.features.length = maxLen batch := by
  have hpair := List.sorted_mergeSort lenDescLe_trans lenDescLe_total batch
  rw [h, List.pairwise_cons] at hpair
  have hmax : ((t.map fun s => s.features.length).foldr max 0) ≤ x.features.length := by
    apply foldr_max_le
    intro a ha
    obtain ⟨s, hs, rfl⟩ := List.mem_map.mp ha
    have := hpair.1 s hs
    simpa [lenDescLe] using this
  rw [← maxLen_eq_sorted_fold]
  unfold sortedLens
  rw [h]
  simp only [List.map_cons, List.foldr_cons]
  omega

/-- When the batch is non-empty, has uniform row width `D` and a positive
maximal length, the padding rows have width `D`. -/
theorem padDim_eq {batch : List Sample} {D : Nat} (hne : batch ≠ [])
    (hD : ∀ s ∈ batch, ∀ row ∈ s.features, row.length = D)
    (hpos : 0 < maxLen batch) : padDim batch = D := by
  have hslen : batch.mergeSort lenDescLe ≠ [] := by
    intro hcon
    apply hne
    have := List.mergeSort_perm batch lenDescLe
    rw [hcon] at this
    exact this.symm.eq_nil
  obtain ⟨x, t, hxt⟩ := List.exists_cons_of_ne_nil hslen
  have hxlen : x.features.length = maxLen batch := sorted_head_len hxt
  have hxb : x ∈ batch := (List.mergeSort_perm batch lenDescLe).mem_iff.mp (by
    rw [hxt]; exact List.mem_cons_self _ _)
  obtain ⟨r, fr, hrf⟩ := List.exists_cons_of_ne_nil (by
    intro hcon
    rw [hcon] at hxlen
    simp at hxlen
    omega : x.features ≠ [])
  have : r ∈ x.features := by rw [hrf]; exact List.mem_cons_self _ _
  have hrD : r.length = D := hD x hxb r this
  unfold padDim
  rw [hxt]
  simp [hrf, hrD]

/-- C2 (amended): collation does not reject a zero-length sample; its
pad_mask row is entirely True. -/
theorem collate_zero_len_all_pad (batch : List Sample) (i : Nat)
    (hi : i < batch.length) (h0 : (sortedLens batch).getD i 0 = 0) :
    ∀ b ∈ (collate_feat batch).pad_mask.getD i [], b = true := by
  intro b hb
  have hilen : i < (sortedLens batch).length := by rwa [sortedLens_length]
  rw [pad_mask_eq, getD_of_lt _ _ _ (by simpa using hilen), List.getElem_map,
    ← getD_of_lt _ _ (0 : Nat) hilen, h0, List.replicate_zero, List.nil_append] at hb
  exact List.eq_of_mem_replicate hb

unseal List.merge List.mergeSort in
/-- C2 (counterexample): on a batch whose second sample has a zero-length
feature sequence, `collate_feat` returns normally, silently zero-padding
that sample and marking its whole mask row as padding — it does not fail. -/
theorem collate_feat_zero_len_counterexample :
    collate_feat [⟨[[1, 2]], [5], [6]⟩, ⟨[], [7], [8]⟩] =
      { features := [[[1, 2], [0, 0]]]
        true_correction := [[5], [7]]
        guess := [[6], [8]]
        pad_mask := [[false], [true]] } := by decide

/-- C6: the padded feature tensor has shape `[L_max, N, D]` with padding
positions holding zero rows, and the pad_mask has shape `(N, L_max)`. -/
theorem collate_feat_shapes (batch : List Sample) (D : Nat) (hne : batch ≠ [])
    (hD : ∀ s ∈ batch, ∀ row ∈ s.features, row.length = D) :
    (collate_feat batch).features.length = maxLen batch ∧
    (∀ plane ∈ (collate_feat batch).features,
        plane.length = batch.length ∧ ∀ row ∈ plane, row.length = D) ∧
    (∀ l i, l < maxLen batch → i < batch.length →
        (sortedLens batch).getD i 0 ≤ l →
        ((collate_feat batch).features.getD l []).getD i [] = List.replicate D 0) ∧
    (collate_feat batch).pad_mask.length = batch.length ∧
    (∀ row ∈ (collate_feat batch).pad_mask, row.length = maxLen batch) := by
  have hsortlen : (batch.mergeSort lenDescLe).length = batch.length :=
    List.length_mergeSort batch
  refine ⟨?_, ?_, ?_, ?_, ?_⟩
  · rw [features_eq]
    simp
  · intro plane hplane
    rw [features_eq] at hplane
    obtain ⟨l, hl, rfl⟩ := List.mem_map.mp hplane
    have hlmax : l < maxLen batch := by simpa using hl
    refine ⟨by simp [hsortlen], ?_⟩
    intro row hrow
    obtain ⟨s, hs, rfl⟩ := List.mem_map.mp hrow
    obtain ⟨u, hu, rfl⟩ := List.mem_map.mp hs
    have hub : u ∈ batch := (List.mergeSort_perm batch lenDescLe).mem_iff.mp hu
    by_cases hcase : l < u.features.length
    · rw [getD_of_lt _ _ _ hcase]
      exact hD u hub _ (List.getElem_mem hcase)
    · rw [getD_of_le _ _ _ (Nat.le_of_not_lt hcase),
        padDim_eq hne hD (Nat.lt_of_le_of_lt (Nat.zero_le l) hlmax)]
      simp
  · intro l i hl hi hLi
    have hilen : i < (sortedLens batch).length := by rwa [sortedLens_length]
    have hisort : i < (batch.mergeSort lenDescLe).length := by rwa [hsortlen]
    have hplane : (collate_feat batch).features.getD l [] =
        ((batch.mergeSort lenDescLe).map Sample.features).map
          (fun s => s.getD l (List.replicate (padDim batch) 0)) := by
      rw [features_eq, getD_of_lt _ _ _ (by simpa using hl), List.getElem_map,
        List.getElem_range]
    rw [hplane, getD_of_lt _ _ _ (by simpa using hisort), List.getElem_map,
      List.getElem_map]
    have hlen_i : (batch.mergeSort lenDescLe)[i].features.length =
        (sortedLens batch).getD i 0 := by
      rw [getD_of_lt _ _ _ hilen]
      simp [sortedLens]
    rw [getD_of_le _ _ _ (by rw [hlen_i]; exact hLi),
      padDim_eq hne hD (Nat.lt_of_le_of_lt (Nat.zero_le l) hl)]
  · rw [pad_mask_eq]
    simp [sortedLens_length]
  · intro row hrow
    rw [pad_mask_eq] at hrow
    obtain ⟨Li, hLi, rfl⟩ := List.mem_map.mp hrow
    have hle : Li ≤ maxLen batch := by
      rw [← maxLen_eq_sorted_fold]
      exact le_foldr_max hLi 0
    simp
    omega

/-- C5: the batch is reordered by a stable sort into non-increasing original
sequence lengths (witnessed by an index-tagged copy of the sorted batch that
is a permutation of `batch.enum` and strictly increases the original index on
equal lengths), and the `true_correction` and `guess` stacks of shape `[N, C]`
follow the same sorted order. -/
theorem collate_feat_sorted_order (batch : List Sample) (C : Nat)
    (hC : ∀ s ∈ batch, s.true_correction.length = C ∧ s.guess.length = C) :
    (batch.mergeSort lenDescLe).Perm batch ∧
    (sortedLens batch).Pairwise (fun a b => b ≤ a) ∧
    (∃ tagged : List (Nat × Sample),
        tagged.map Prod.snd = batch.mergeSort lenDescLe ∧
        tagged.Perm batch.enum ∧
        tagged.Pairwise (fun p q =>
          p.2.features.length = q.2.features.length → p.1 < q.1)) ∧
    (collate_feat batch).true_correction =
      (batch.mergeSort lenDescLe).map Sample.true_correction ∧
    (collate_feat batch).guess = (batch.mergeSort lenDescLe).map Sample.guess ∧
    (collate_feat batch).true_correction.length = batch.length ∧
    (∀ r ∈ (collate_feat batch).true_correction, r.length = C) ∧
    (collate_feat batch).guess.length = batch.length ∧
    (∀ r ∈ (collate_feat batch).guess, r.length = C) := by
  refine ⟨List.mergeSort_perm batch lenDescLe, ?_, ?_, rfl, rfl, ?_, ?_, ?_, ?_⟩
  · have hp := List.sorted_mergeSort lenDescLe_trans lenDescLe_total batch
    unfold sortedLens
    rw [List.pairwise_map]
    exact hp.imp fun h => by simpa [lenDescLe] using h
  · refine ⟨(batch.enum).mergeSort (List.enumLE lenDescLe), List.mergeSort_enum,
      List.mergeSort_perm _ _, ?_⟩
    have hs := List.sorted_mergeSort (List.enumLE_trans lenDescLe_trans)
      (List.enumLE_total lenDescLe_total) batch.enum
    have hnd : ((batch.enum.mergeSort (List.enumLE lenDescLe)).map Prod.fst).Nodup := by
      have hperm : ((batch.enum.mergeSort (List.enumLE lenDescLe)).map Prod.fst).Perm
          (batch.enum.map Prod.fst) := (List.mergeSort_perm _ _).map _
      rw [List.enum_map_fst] at hperm
      exact hperm.symm.nodup (List.nodup_range _)
    have hne2 : (batch.enum.mergeSort (List.enumLE lenDescLe)).Pairwise
        (fun p q : Nat × Sample => p.1 ≠ q.1) := List.pairwise_map.mp hnd
    refine (hs.and hne2).imp ?_
    intro p q hpq heq
    have h1 := hpq.1
    have h2 := hpq.2
    have hb : lenDescLe p.2 q.2 = true := by simp [lenDescLe, heq]
    have hb2 : lenDescLe q.2 p.2 = true := by simp [lenDescLe, heq]
    simp only [List.enumLE, hb, hb2, if_true, decide_eq_true_eq] at h1
    exact Nat.lt_of_le_of_ne h1 h2
  · simp [collate_feat]
  · intro r hr
    simp only [collate_feat] at hr
    obtain ⟨s, hsmem, rfl⟩ := List.mem_map.mp hr
    exact (hC s ((List.mergeSort_perm batch lenDescLe).mem_iff.mp hsmem)).1
  · simp [collate_feat]
  · intro r hr
    simp only [collate_feat] at hr
    obtain ⟨s, hsmem, rfl⟩ := List.mem_map.mp hr
    exact (hC s ((List.mergeSort_perm batch lenDescLe).mem_iff.mp hsmem)).2

/-- C8: the collator is deterministic: two invocations on the same unsorted
sample list produce identical padded features, masks, corrections and
guesses.  In this embedding `collate_feat` is a pure function of its input,
so the property is definitional — the embedding has no hidden randomness to
model. -/
theorem collate_feat_deterministic (batch1 batch2 : List Sample)
    (h : batch1 = batch2) :
    (collate_feat batch1).features = (collate_feat batch2).features ∧
    (collate_feat batch1).pad_mask = (collate_feat batch2).pad_mask ∧
    (collate_feat batch1).true_correction = (collate_feat batch2).true_correction ∧
    (collate_feat batch1).guess = (collate_feat batch2).guess := by
  subst h
  exact ⟨rfl, rfl, rfl, rfl⟩

theorem nextWrap_drop {β : Type} (d : β) (loader : List β) (h : loader ≠ [])
    (j : Nat) (hj : j ≤ loader.length) :
    nextWrap loader (loader.drop j) =
      some (loader.getD (j % loader.length) d,
        loader.drop (j % loader.length + 1)) := by
  have hK : 0 < loader.length := List.length_pos.mpr h
  rcases Nat.lt_or_ge j loader.length with hlt | hge
  · rw [List.drop_eq_getElem_cons hlt, Nat.mod_eq_of_lt hlt, getD_of_lt _ _ _ hlt]
    rfl
  · have hj2 : j = loader.length := Nat.le_antisymm hj hge
    subst hj2
    rw [List.drop_length, Nat.mod_self, getD_of_lt _ _ _ hK]
    obtain ⟨b, t, rfl⟩ := List.exists_cons_of_ne_nil h
    rfl

theorem evalLoop_drop (val_loader : List CollateOut)
    (net : List (List (List ℚ)) → List (List Bool) → List (List ℚ))
    (loss_func : List (List ℚ) → List (List ℚ) → ℚ)
    (h : val_loader ≠ []) (n : Nat) :
    ∀ (j : Nat) (stats : List (List (List ℚ))) (loss : ℚ),
      j ≤ val_loader.length →
      evalLoop val_loader net loss_func n (val_loader.drop j) stats loss =
        some (stats ++ (List.range n).map fun i =>
            statOf net (val_loader.getD ((j + i) % val_loader.length) ⟨[], [], [], []⟩),
          loss + ((List.range n).map fun i =>
            lossOf net loss_func
              (val_loader.getD ((j + i) % val_loader.length) ⟨[], [], [], []⟩)).sum) := by
  have hK : 0 < val_loader.length := List.length_pos.mpr h
  induction n with
  | zero =>
    intro j stats loss hj
    simp [evalLoop]
  | succ n ih =>
    intro j stats loss hj
    have hmod : j % val_loader.length < val_loader.length := Nat.mod_lt _ hK
    have hidx : ∀ i : Nat,
        (j % val_loader.length + 1 + i) % val_loader.length =
          (j + (i + 1)) % val_loader.length := by
      intro i
      calc (j % val_loader.length + 1 + i) % val_loader.length
          = (j % val_loader.length + (1 + i)) % val_loader.length := by
            rw [Nat.add_assoc]
        _ = (j + (1 + i)) % val_loader.length := Nat.mod_add_mod _ _ _
        _ = (j + (i + 1)) % val_loader.length := by rw [Nat.add_comm 1 i]
    have hstep : evalLoop val_loader net loss_func (n + 1) (val_loader.drop j) stats loss =
        evalLoop val_loader net loss_func n
          (val_loader.drop (j % val_loader.length + 1))
          (stats ++ [statOf net (val_loader.getD (j % val_loader.length) ⟨[], [], [], []⟩)])
          (loss + lossOf net loss_func
            (val_loader.getD (j % val_loader.length) ⟨[], [], [], []⟩)) := by
      simp only [evalLoop]
      rw [nextWrap_drop ⟨[], [], [], []⟩ val_loader h j hj]
    rw [hstep, ih (j % val_loader.length + 1) _ _ (by omega)]
    congr 1
    rw [List.range_succ_eq_map, List.map_cons, List.map_cons, List.map_map,
      List.map_map, List.sum_cons, List.append_assoc, List.singleton_append,
      Nat.add_zero, Prod.mk.injEq]
    refine ⟨?_, ?_⟩
    · congr 1
      congr 1
      apply List.map_congr_left
      intro i _
      simp only [Function.comp_apply]
      rw [hidx i]
    · rw [← add_assoc]
      congr 2
      apply List.map_congr_left
      intro i _
      simp only [Function.comp_apply]
      rw [hidx i]

/-- Closed form of `test_eval` on a non-empty loader: 100 wrapped
iterations over the cyclic batch stream. -/
theorem test_eval_eq (val_loader : List CollateOut)
    (net : List (List (List ℚ)) → List (List Bool) → List (List ℚ))
    (loss_func : List (List ℚ) → List (List ℚ) → ℚ) (h : val_loader ≠ []) :
    test_eval val_loader net loss_func =
      some (npAbsMean0 ((wrapStream val_loader 100).map (statOf net)),
        ((wrapStream val_loader 100).map (lossOf net loss_func)).sum / 100) := by
  unfold test_eval
  have h0 := evalLoop_drop val_loader net loss_func h 100 0 [] 0 (Nat.zero_le _)
  rw [List.drop_zero] at h0
  rw [h0]
  simp only [Option.map_some, List.nil_append, Rat.zero_add, wrapStream,
    List.map_map, List.length_map, List.length_range, Nat.zero_add]
  norm_num
  constructor
  · congr 1
  · congr 2

/-- C3: on a loader that yields at least one batch, `test_eval` performs
exactly 100 iterations, wrapping to the start of the loader on exhaustion
(batch `i` of the stream is batch `i % N` of the loader), and the returned
mean loss is the sum of the 100 per-iteration losses divided by exactly
100. -/
theorem test_eval_hundred_iterations (val_loader : List CollateOut)
    (net : List (List (List ℚ)) → List (List Bool) → List (List ℚ))
    (loss_func : List (List ℚ) → List (List ℚ) → ℚ) (h : val_loader ≠ []) :
    test_eval val_loader net loss_func =
      some (npAbsMean0 ((wrapStream val_loader 100).map (statOf net)),
        ((wrapStream val_loader 100).map (lossOf net loss_func)).sum / 100) ∧
    (wrapStream val_loader 100).length = 100 :=
  ⟨test_eval_eq _ _ _ h, by simp [wrapStream]⟩

/-- C9: on an empty loader the wrap-and-retry path fails again on the first
iteration and the evaluator aborts (the second `StopIteration` is not
caught); the result is no value rather than a wrap. -/
theorem test_eval_empty_aborts
    (net : List (List (List ℚ)) → List (List Bool) → List (List ℚ))
    (loss_func : List (List ℚ) → List (List ℚ) → ℚ) :
    test_eval [] net loss_func = none := rfl

theorem getD_zero_eq_headD {α : Type} (l : List α) (d : α) :
    l.getD 0 d = l.headD d := by
  cases l <;> rfl

theorem npAbsMean0_of_single_rows {stats : List (List (List ℚ))} {C : Nat}
    (hne : stats ≠ [])
    (h1 : ∀ m ∈ stats, ∃ row, m = [row] ∧ row.length = C) :
    npAbsMean0 stats = [(List.range C).map fun j =>
      ((stats.map fun m => |(m.headD []).getD j 0|).sum) / (stats.length : ℚ)] := by
  obtain ⟨m0, t, rfl⟩ := List.exists_cons_of_ne_nil hne
  obtain ⟨row0, hm0, hrow0⟩ := h1 m0 (List.mem_cons_self _ _)
  subst hm0
  unfold npAbsMean0
  simp only [List.headD_cons, List.length_cons, List.length_nil, Nat.zero_add, hrow0]
  rw [show List.range 1 = [0] from rfl]
  simp only [List.map_cons, List.map_nil, getD_zero_eq_headD]

theorem wrapStream_mem {val_loader : List CollateOut} {b : CollateOut} {n : Nat}
    (h : val_loader ≠ []) (hb : b ∈ wrapStream val_loader n) : b ∈ val_loader := by
  have hK : 0 < val_loader.length := List.length_pos.mpr h
  unfold wrapStream at hb
  obtain ⟨i, _, rfl⟩ := List.mem_map.mp hb
  have hmod : i % val_loader.length < val_loader.length := Nat.mod_lt _ hK
  rw [getD_of_lt _ _ _ hmod]
  exact List.getElem_mem hmod

/-- C7: on a non-empty loader whose batches carry a single sample with a
correction vector of length `C` (as produced by the validation loader with
batch size 1) and whose predictions match that shape, the first component
returned by `test_eval` is the matrix `[1, C]` whose entries are the
dimension-wise means, over the 100 evaluated samples, of the absolute
difference between target and prediction. -/
theorem test_eval_mae_dimension (val_loader : List CollateOut)
    (net : List (List (List ℚ)) → List (List Bool) → List (List ℚ))
    (loss_func : List (List ℚ) → List (List ℚ) → ℚ) (C : Nat)
    (h : val_loader ≠ [])
    (hy : ∀ b ∈ val_loader, ∃ row, b.true_correction = [row] ∧ row.length = C)
    (hp : ∀ b ∈ val_loader, ∃ row, predOf net b = [row] ∧ row.length = C) :
    ∃ mloss, test_eval val_loader net loss_func =
      some ([(List.range C).map fun j =>
        (((wrapStream val_loader 100).map fun b =>
          |(b.true_correction.headD []).getD j 0 -
            ((predOf net b).headD []).getD j 0|).sum) / 100], mloss) := by
  refine ⟨((wrapStream val_loader 100).map (lossOf net loss_func)).sum / 100, ?_⟩
  rw [test_eval_eq _ _ _ h]
  have hsingle : ∀ m ∈ (wrapStream val_loader 100).map (statOf net),
      ∃ row, m = [row] ∧ row.length = C := by
    intro m hm
    obtain ⟨b, hbmem, rfl⟩ := List.mem_map.mp hm
    have hbl : b ∈ val_loader := wrapStream_mem h hbmem
    obtain ⟨yrow, hyr, hyl⟩ := hy b hbl
    obtain ⟨prow, hpr, hpl⟩ := hp b hbl
    refine ⟨List.zipWith (fun u v => u - v) yrow prow, ?_, ?_⟩
    · unfold statOf matSub
      rw [hyr, hpr]
      rfl
    · rw [List.length_zipWith, hyl, hpl, Nat.min_self]
  have hlen : ((wrapStream val_loader 100).map (statOf net)).length = 100 := by
    simp [wrapStream]
  rw [npAbsMean0_of_single_rows (by rw [← List.length_pos] at *; omega) hsingle, hlen]
  simp only [Nat.cast_ofNat]
  congr 2
  congr 1
  apply List.map_congr_left
  intro j hj
  have hjC : j < C := List.mem_range.mp hj
  congr 1
  rw [List.map_map]
  congr 1
  apply List.map_congr_left
  intro b hbmem
  have hbl : b ∈ val_loader := wrapStream_mem h hbmem
  obtain ⟨yrow, hyr, hyl⟩ := hy b hbl
  obtain ⟨prow, hpr, hpl⟩ := hp b hbl
  simp only [Function.comp_apply]
  have hstat : statOf net b = [List.zipWith (fun u v => u - v) yrow prow] := by
    unfold statOf matSub
    rw [hyr, hpr]
    rfl
  rw [hstat, hyr, hpr]
  simp only [List.headD_cons]
  have hjz : j < (List.zipWith (fun u v : ℚ => u - v) yrow prow).length := by
    rw [List.length_zipWith, hyl, hpl, Nat.min_self]
    exact hjC
  rw [getD_of_lt _ _ _ hjz, List.getElem_zipWith,
    getD_of_lt _ _ _ (by rw [hyl]; exact hjC), getD_of_lt _ _ _ (by rw [hpl]; exact hjC)]

theorem checkpointWrites_foldl (accs : List (List (List ℚ))) :
    ∀ (m : ℚ) (acc : List Bool),
      (accs.foldl
        (fun st mean_acc =>
          if npSum mean_acc < st.1 then (npSum mean_acc, st.2 ++ [true])
          else (st.1, st.2 ++ [false]))
        (m, acc)) =
      (((accs.map npSum).foldl min m), acc ++ writesFrom m accs) := by
  induction accs with
  | nil =>
    intro m acc
    simp [writesFrom]
  | cons a t ih =>
    intro m acc
    rw [List.foldl_cons, List.map_cons, List.foldl_cons, writesFrom]
    by_cases hcase : npSum a < m
    · rw [if_pos hcase, ih (npSum a) (acc ++ [true]),
        min_eq_right (le_of_lt hcase)]
      simp [hcase]
    · rw [if_neg hcase, ih m (acc ++ [false]), min_eq_left (le_of_not_lt hcase)]
      simp [hcase]

theorem checkpointWrites_eq_writesFrom (accs : List (List (List ℚ))) :
    checkpointWrites accs = writesFrom 1000000 accs := by
  unfold checkpointWrites
  rw [checkpointWrites_foldl]
  simp

theorem writesFrom_getD (accs : List (List (List ℚ))) :
    ∀ (m : ℚ) (t : Nat), t < accs.length →
      (writesFrom m accs).getD t false =
        decide (npSum (accs.getD t []) < ((accs.take t).map npSum).foldl min m) := by
  induction accs with
  | nil =>
    intro m t ht
    simp at ht
  | cons a as ih =>
    intro m t ht
    cases t with
    | zero => simp [writesFrom]
    | succ t2 =>
      rw [writesFrom, List.getD_cons_succ, ih (min m (npSum a)) t2 (by simpa using ht)]
      simp [List.take_succ_cons]

/-- C4 (amended): the model is checkpointed after epoch `t` exactly when
the summed per-dimension error of epoch `t` is strictly lower than the
minimum of the initial threshold 1000000 and all previous epoch scores
(which, for runs whose scores stay below 1000000, is exactly "strictly
better than the best seen so far", as in the 5.0 / 6.0 / 4.9 scenario). -/
theorem checkpointWrites_iff (accs : List (List (List ℚ))) (t : Nat)
    (ht : t < accs.length) :
    ((checkpointWrites accs).getD t false = true ↔
      npSum (accs.getD t []) < ((accs.take t).map npSum).foldl min 1000000) := by
  rw [checkpointWrites_eq_writesFrom, writesFrom_getD accs 1000000 t ht]
  simp

/-- C4 (counterexample): a first epoch with score exactly 1000000 is the
best seen so far, yet the code writes no checkpoint; the claimed
strictly-better-than-best-so-far rule would write one. -/
theorem checkpoint_first_epoch_counterexample :
    checkpointWrites [[[1000000]]] = [false] ∧ claimedWrites [[[1000000]]] = [true] := by
  constructor
  · norm_num [checkpointWrites, npSum]
  · norm_num [claimedWrites, npSum, List.range_succ]

/-- C10: `min_acc` is initialised to the finite constant 1000000, so a run
whose first epoch scores at least 1000000 writes no checkpoint after that
epoch even though it is the best score seen so far. -/
theorem checkpoint_threshold_finite (a : List (List ℚ)) (rest : List (List (List ℚ)))
    (h : (1000000 : ℚ) ≤ npSum a) :
    (checkpointWrites (a :: rest)).getD 0 false = false := by
  rw [checkpointWrites_eq_writesFrom, writesFrom]
  simp [not_lt.mpr h]

/-! ### Concrete inputs used by the witnesses -/

/-- Two samples with lengths 2 and 1, one feature column, one correction
dimension. -/
def exBatch : List Sample := [⟨[[1], [2]], [10], [20]⟩, ⟨[[3]], [11], [21]⟩]

/-- A batch whose second sample has a zero-length feature sequence. -/
def exC2Batch : List Sample := [⟨[[1, 2]], [5], [6]⟩, ⟨[], [7], [8]⟩]

/-- A one-batch validation loader with a single sample and one correction
dimension. -/
def exLoader : List CollateOut := [⟨[[[1]]], [[2]], [[3]], [[false]]⟩]

/-- A constant network for the evaluator witnesses. -/
def exNet : List (List (List ℚ)) → List (List Bool) → List (List ℚ) := fun _ _ => [[0]]

/-- A constant loss function for the evaluator witnesses. -/
def exLoss : List (List ℚ) → List (List ℚ) → ℚ := fun _ _ => 0

/-- The epoch scores of the 5.0 / 6.0 / 4.9 checkpoint scenario. -/
def exAccs : List (List (List ℚ)) := [[[5]], [[6]], [[49/10]]]

theorem pad_mask_marks_padding_witness :
    (∀ i l, i < exBatch.length → l < maxLen exBatch →
        (((collate_feat exBatch).pad_mask.getD i []).getD l false = true ↔
          (sortedLens exBatch).getD i 0 ≤ l)) ∧
    (exBatch.length = 1 →
        ∀ row ∈ (collate_feat exBatch).pad_mask, ∀ b ∈ row, b = false) ∧
    ((∀ s ∈ exBatch, ∀ t ∈ exBatch, s.features.length = t.features.length) →
        ∀ row ∈ (collate_feat exBatch).pad_mask, ∀ b ∈ row, b = false) :=
  pad_mask_marks_padding exBatch (by decide) (by decide)

unseal List.merge List.mergeSort in
theorem collate_zero_len_all_pad_witness :
    ((collate_feat exC2Batch).pad_mask.getD 1 []).getD 0 false = true :=
  collate_zero_len_all_pad exC2Batch 1 (by decide) (by decide)
    (((collate_feat exC2Batch).pad_mask.getD 1 []).getD 0 false) (by decide)

theorem test_eval_hundred_iterations_witness :
    test_eval exLoader exNet exLoss =
      some (npAbsMean0 ((wrapStream exLoader 100).map (statOf exNet)),
        ((wrapStream exLoader 100).map (lossOf exNet exLoss)).sum / 100) ∧
    (wrapStream exLoader 100).length = 100 :=
  test_eval_hundred_iterations exLoader exNet exLoss (by decide)

theorem checkpointWrites_iff_witness :
    ((checkpointWrites exAccs).getD 2 false = true ↔
      npSum (exAccs.getD 2 []) < ((exAccs.take 2).map npSum).foldl min 1000000) :=
  checkpointWrites_iff exAccs 2 (by decide)

theorem collate_feat_sorted_order_witness :
    (exBatch.mergeSort lenDescLe).Perm exBatch ∧
    (sortedLens exBatch).Pairwise (fun a b => b ≤ a) ∧
    (∃ tagged : List (Nat × Sample),
        tagged.map Prod.snd = exBatch.mergeSort lenDescLe ∧
        tagged.Perm exBatch.enum ∧
        tagged.Pairwise (fun p q =>
          p.2.features.length = q.2.features.length → p.1 < q.1)) ∧
    (collate_feat exBatch).true_correction =
      (exBatch.mergeSort lenDescLe).map Sample.true_correction ∧
    (collate_feat exBatch).guess = (exBatch.mergeSort lenDescLe).map Sample.guess ∧
    (collate_feat exBatch).true_correction.length = exBatch.length ∧
    (∀ r ∈ (collate_feat exBatch).true_correction, r.length = 1) ∧
    (collate_feat exBatch).guess.length = exBatch.length ∧
    (∀ r ∈ (collate_feat exBatch).guess, r.length = 1) :=
  collate_feat_sorted_order exBatch 1 (by decide)

theorem collate_feat_shapes_witness :
    (collate_feat exBatch).features.length = maxLen exBatch ∧
    (∀ plane ∈ (collate_feat exBatch).features,
        plane.length = exBatch.length ∧ ∀ row ∈ plane, row.length = 1) ∧
    (∀ l i, l < maxLen exBatch → i < exBatch.length →
        (sortedLens exBatch).getD i 0 ≤ l →
        ((collate_feat exBatch).features.getD l []).getD i [] = List.replicate 1 0) ∧
    (collate_feat exBatch).pad_mask.length = exBatch.length ∧
    (∀ row ∈ (collate_feat exBatch).pad_mask, row.length = maxLen exBatch) :=
  collate_feat_shapes exBatch 1 (by decide) (by decide)

theorem test_eval_mae_dimension_witness :
    ∃ mloss, test_eval exLoader exNet exLoss =
      some ([(List.range 1).map fun j =>
        (((wrapStream exLoader 100).map fun b =>
          |(b.true_correction.headD []).getD j 0 -
            ((predOf exNet b).headD []).getD j 0|).sum) / 100], mloss) :=
  test_eval_mae_dimension exLoader exNet exLoss 1 (by decide)
    (fun b hb => by rw [List.mem_singleton.mp hb]; exact ⟨[2], rfl, rfl⟩)
    (fun b hb => by rw [List.mem_singleton.mp hb]; exact ⟨[0], rfl, rfl⟩)

theorem collate_feat_deterministic_witness :
    (collate_feat exBatch).features = (collate_feat exBatch).features ∧
    (collate_feat exBatch).pad_mask = (collate_feat exBatch).pad_mask ∧
    (collate_feat exBatch).true_correction = (collate_feat exBatch).true_correction ∧
    (collate_feat exBatch).guess = (collate_feat exBatch).guess :=
  collate_feat_deterministic exBatch exBatch rfl

theorem checkpoint_threshold_finite_witness :
    (checkpointWrites ([[1000000]] :: [])).getD 0 false = false :=
  checkpoint_threshold_finite [[1000000]] [] (by simp [npSum])

end TrainAndroid
